import Mathlib

/-!
Shallow embedding of `src/source_query_proxy/proxy.py` (the proxy engine:
future-backed cache, challenge handshake exchange, backend refresh loops,
client dispatcher, listener loop) and proofs of the specification claims.
-/

namespace SourceQueryProxy

/-- Raw payload bytes (`bytes` in the source), kept abstract as a list of integers. -/
abbrev ByteStr := List Int

/-- A UDP peer address `(host, port)`. -/
abbrev Addr := String × Nat

/-- `MAX_SIZE_32 = 2 ** 31 - 1` (proxy.py line 16). -/
def MAX_SIZE_32 : Int := 2 ^ 31 - 1

/-- `QueryProxy.A2S_EMPTY_CHALLENGE = -1` (proxy.py line 52): the sentinel
meaning "no challenge known yet". -/
def A2S_EMPTY_CHALLENGE : Int := -1

/-- An `asyncio.Future` as stored by `AwaitableDict`: either still pending,
carrying the identities of the callers currently awaiting it, or done with
a result.  Awaiting a done future returns its result immediately; resolving
a pending future delivers the result to every registered waiter. -/
inductive Fut (α : Type) where
  | pending (waiters : List Nat)
  | done (v : α)
  deriving DecidableEq, Repr

/-- The state of an `AwaitableDict` (proxy.py lines 19-48): its underlying
`self.data` mapping keys to futures. -/
def AwaitableDict (α : Type) := String → Option (Fut α)

/-- A fresh, empty `AwaitableDict`. -/
def emptyDict (α : Type) : AwaitableDict α := fun _ => none

/-- Store future `f` under key `k` (plain `self.data[key] = fut`). -/
def dictSet {α : Type} (s : AwaitableDict α) (k : String) (f : Fut α) : AwaitableDict α :=
  fun k2 => if k2 = k then some f else s k2

/-- `AwaitableDict.__setitem__` (proxy.py lines 24-33).  If the key holds a
pending future, `fut.set_result(value)` resolves it, delivering `value` to all
registered waiters; if it holds a done future, a fresh future replaces it and
is resolved with `value`; if the key is absent, a fresh resolved future is
stored.  Returns the new state together with the list of
(waiter, delivered value) notifications. -/
def setItem {α : Type} (s : AwaitableDict α) (k : String) (v : α) :
    AwaitableDict α × List (Nat × α) :=
  match s k with
  | some (Fut.pending ws) => (dictSet s k (Fut.done v), ws.map (fun c => (c, v)))
  | some (Fut.done _) => (dictSet s k (Fut.done v), [])
  | none => (dictSet s k (Fut.done v), [])

/-- `AwaitableDict.__getitem__` (proxy.py lines 35-39): raises `KeyError`
(modelled as `none`) when the key is absent or its future is not done;
otherwise returns the future's result. -/
def getItem {α : Type} (s : AwaitableDict α) (k : String) : Option α :=
  match s k with
  | some (Fut.done v) => some v
  | _ => none

/-- Membership test `key in self` (inherited `UserDict.__contains__`,
which checks `key in self.data`). -/
def contains {α : Type} (s : AwaitableDict α) (k : String) : Bool :=
  (s k).isSome

/-- Outcome of one `get_wait` call: the value, when the key's future was
already done, or a suspension of the caller until the future resolves. -/
inductive GetWaitOutcome (α : Type) where
  | ready (v : α)
  | suspended
  deriving DecidableEq, Repr

/-- `AwaitableDict.get_wait` (proxy.py lines 41-48).  If the key is absent, a
fresh pending future is stored and the caller suspends on it; if the key holds
a pending future, the caller suspends on that same future (registering as one
more waiter); if the future is done, its value is returned immediately. -/
def get_wait {α : Type} (s : AwaitableDict α) (k : String) (caller : Nat) :
    AwaitableDict α × GetWaitOutcome α :=
  match s k with
  | none => (dictSet s k (Fut.pending [caller]), GetWaitOutcome.suspended)
  | some (Fut.pending ws) =>
      (dictSet s k (Fut.pending (ws ++ [caller])), GetWaitOutcome.suspended)
  | some (Fut.done v) => (s, GetWaitOutcome.ready v)

/-- A sequence of `get_wait` calls on the same key by the listed callers,
threading the state and collecting each call's outcome. -/
def getWaitAll {α : Type} (s : AwaitableDict α) (k : String) :
    List Nat → AwaitableDict α × List (GetWaitOutcome α)
  | [] => (s, [])
  | c :: cs =>
    let r := get_wait s k c
    let rest := getWaitAll r.1 k cs
    (rest.1, r.2 :: rest.2)

theorem dictSet_self {α : Type} (s : AwaitableDict α) (k : String) (f : Fut α) :
    dictSet s k f k = some f := by
  simp [dictSet]

theorem getWaitAll_pending {α : Type} (cs : List Nat) :
    ∀ (s : AwaitableDict α) (k : String) (ws : List Nat),
      s k = some (Fut.pending ws) →
      (getWaitAll s k cs).1 k = some (Fut.pending (ws ++ cs)) ∧
      (getWaitAll s k cs).2 = cs.map (fun _ => GetWaitOutcome.suspended) := by
  induction cs with
  | nil => intro s k ws h; simpa [getWaitAll] using h
  | cons c cs ih =>
    intro s k ws h
    have hstep : get_wait s k c =
        (dictSet s k (Fut.pending (ws ++ [c])), GetWaitOutcome.suspended) := by
      simp [get_wait, h]
    have hnext : (dictSet s k (Fut.pending (ws ++ [c]))) k
        = some (Fut.pending (ws ++ [c])) := dictSet_self _ _ _
    have := ih (dictSet s k (Fut.pending (ws ++ [c]))) k (ws ++ [c]) hnext
    simp only [getWaitAll, hstep]
    constructor
    · simpa using this.1
    · simpa using this.2

theorem setItem_state {α : Type} (s : AwaitableDict α) (k : String) (v : α) :
    (setItem s k v).1 k = some (Fut.done v) := by
  cases h : s k with
  | none => simp [setItem, h, dictSet_self]
  | some f => cases f <;> simp [setItem, h, dictSet_self]

/-- Claim C3: for every key, all `get_wait` calls made before the key is ever set
suspend, and the single next `set(key, v)` resolves every one of those suspended
callers with exactly `v` — the same value for all of them — and the value remains
readable afterwards (reads never remove it). -/
theorem get_wait_fanout_next_set {α : Type} (s : AwaitableDict α) (k : String)
    (cs : List Nat) (v : α) (h : s k = none) :
    (getWaitAll s k cs).2 = cs.map (fun _ => GetWaitOutcome.suspended) ∧
    (setItem (getWaitAll s k cs).1 k v).2 = cs.map (fun c => (c, v)) ∧
    ((setItem (getWaitAll s k cs).1 k v).1) k = some (Fut.done v) ∧
    getItem ((setItem (getWaitAll s k cs).1 k v).1) k = some v ∧
    (∀ c2, get_wait ((setItem (getWaitAll s k cs).1 k v).1) k c2
        = ((setItem (getWaitAll s k cs).1 k v).1, GetWaitOutcome.ready v)) := by
  have hstate : ((setItem (getWaitAll s k cs).1 k v).1) k = some (Fut.done v) :=
    setItem_state _ _ _
  have hread : getItem ((setItem (getWaitAll s k cs).1 k v).1) k = some v := by
    simp [getItem, hstate]
  have hwait : ∀ c2, get_wait ((setItem (getWaitAll s k cs).1 k v).1) k c2
      = ((setItem (getWaitAll s k cs).1 k v).1, GetWaitOutcome.ready v) := by
    intro c2; simp [get_wait, hstate]
  cases cs with
  | nil =>
    refine ⟨rfl, ?_, hstate, hread, hwait⟩
    simp [getWaitAll, setItem, h]
  | cons c cs2 =>
    have hstep : get_wait s k c =
        (dictSet s k (Fut.pending [c]), GetWaitOutcome.suspended) := by
      simp [get_wait, h]
    have hp := getWaitAll_pending cs2 (dictSet s k (Fut.pending [c])) k [c]
      (dictSet_self _ _ _)
    have hkey : (getWaitAll s k (c :: cs2)).1 k = some (Fut.pending (c :: cs2)) := by
      simp only [getWaitAll, hstep]
      simpa using hp.1
    refine ⟨?_, ?_, hstate, hread, hwait⟩
    · simp only [getWaitAll, hstep]
      simp [hp.2]
    · simp [setItem, hkey]

theorem get_wait_fanout_next_set_witness :
    (emptyDict ByteStr) "a2s_players" = none ∧
    (getWaitAll (emptyDict ByteStr) "a2s_players" [1, 2, 3]).2
      = [1, 2, 3].map (fun _ => GetWaitOutcome.suspended) ∧
    (setItem (getWaitAll (emptyDict ByteStr) "a2s_players" [1, 2, 3]).1
        "a2s_players" [80, 49]).2 = [1, 2, 3].map (fun c => (c, ([80, 49] : ByteStr))) ∧
    getItem ((setItem (getWaitAll (emptyDict ByteStr) "a2s_players" [1, 2, 3]).1
        "a2s_players" [80, 49]).1) "a2s_players" = some [80, 49] := by
  have h := get_wait_fanout_next_set (emptyDict ByteStr) "a2s_players" [1, 2, 3]
    ([80, 49] : ByteStr) rfl
  exact ⟨rfl, h.1, h.2.1, h.2.2.2.1⟩

/-- Claim C4: after `set(key, v1)` followed by `set(key, v2)`, every subsequent
`get_wait` and every subsequent non-blocking read of the key observes `v2` and only
`v2`; the overwritten `v1` is never observed again. -/
theorem setItem_last_write_wins {α : Type} (s : AwaitableDict α) (k : String)
    (v1 v2 : α) :
    ((setItem ((setItem s k v1).1) k v2).1) k = some (Fut.done v2) ∧
    getItem ((setItem ((setItem s k v1).1) k v2).1) k = some v2 ∧
    (∀ c, get_wait ((setItem ((setItem s k v1).1) k v2).1) k c
        = ((setItem ((setItem s k v1).1) k v2).1, GetWaitOutcome.ready v2)) ∧
    (v1 ≠ v2 →
      getItem ((setItem ((setItem s k v1).1) k v2).1) k ≠ some v1 ∧
      (∀ c, (get_wait ((setItem ((setItem s k v1).1) k v2).1) k c).2
          ≠ GetWaitOutcome.ready v1)) := by
  have hstate : ((setItem ((setItem s k v1).1) k v2).1) k = some (Fut.done v2) :=
    setItem_state _ _ _
  have hread : getItem ((setItem ((setItem s k v1).1) k v2).1) k = some v2 := by
    simp [getItem, hstate]
  have hwait : ∀ c, get_wait ((setItem ((setItem s k v1).1) k v2).1) k c
      = ((setItem ((setItem s k v1).1) k v2).1, GetWaitOutcome.ready v2) := by
    intro c; simp [get_wait, hstate]
  refine ⟨hstate, hread, hwait, ?_⟩
  intro hne
  constructor
  · rw [hread]
    intro hcontra
    exact hne (Option.some.inj hcontra).symm
  · intro c
    rw [hwait c]
    intro hcontra
    exact hne (GetWaitOutcome.ready.inj hcontra).symm

theorem setItem_last_write_wins_witness :
    ([1] : ByteStr) ≠ [2] ∧
    getItem ((setItem ((setItem (emptyDict ByteStr) "a2s_info" [1]).1)
        "a2s_info" [2]).1) "a2s_info" ≠ some [1] :=
  ⟨by decide,
    ((setItem_last_write_wins (emptyDict ByteStr) "a2s_info" [1] [2]).2.2.2
      (by decide)).1⟩

/-- Claim C10: the non-blocking read `__getitem__` returns `v` exactly when the key
currently holds a resolved (done) value `v` — which is what `set` installs; it
raises `KeyError` (modelled as `none`) both when the key was never touched and when
the key holds only a pending waiter created by `get_wait` before any set, so
membership can be true while indexing the same key still raises `KeyError`. -/
theorem getItem_keyerror_semantics {α : Type} (s : AwaitableDict α) (k : String) :
    (∀ v, getItem s k = some v ↔ s k = some (Fut.done v)) ∧
    (s k = none → getItem s k = none ∧ contains s k = false) ∧
    (∀ ws, s k = some (Fut.pending ws) → getItem s k = none ∧ contains s k = true) ∧
    (s k = none → ∀ c, contains ((get_wait s k c).1) k = true ∧
      getItem ((get_wait s k c).1) k = none) ∧
    (∀ v, getItem ((setItem s k v).1) k = some v) := by
  refine ⟨?_, ?_, ?_, ?_, ?_⟩
  · intro v
    cases h : s k with
    | none => simp [getItem, h]
    | some f => cases f <;> simp [getItem, h]
  · intro h
    simp [getItem, contains, h]
  · intro ws h
    simp [getItem, contains, h]
  · intro h c
    have hkey : ((get_wait s k c).1) k = some (Fut.pending [c]) := by
      simp [get_wait, h, dictSet_self]
    simp [getItem, contains, hkey]
  · intro v
    simp [getItem, setItem_state]

theorem getItem_keyerror_semantics_witness :
    contains ((get_wait (emptyDict ByteStr) "a2s_rules" 7).1) "a2s_rules" = true ∧
    getItem ((get_wait (emptyDict ByteStr) "a2s_rules" 7).1) "a2s_rules"
      = (none : Option ByteStr) :=
  (getItem_keyerror_semantics (emptyDict ByteStr) "a2s_rules").2.2.2.1 rfl 7

/-- The decoded message variants of `source.messages` used by the proxy
(spec section 3): the three request kinds, the challenge response, and opaque
response payloads. -/
inductive Msg where
  | infoRequest
  | playersRequest (challenge : Int)
  | rulesRequest (challenge : Int)
  | getChallengeResponse (challenge : Int)
  | infoResponse (payload : ByteStr)
  | playersResponse (payload : ByteStr)
  | rulesResponse (payload : ByteStr)
  deriving DecidableEq, Repr

/-- Modelled from the spec: the wire codec (`source.messages`, not under `src/`)
is an opaque collaborator (spec sections 1 and 6); we model the encoded bytes of
`GetChallengeResponse(challenge=c).encode()` as an injective tagging of the
challenge value. -/
def GetChallengeResponse_encode (challenge : Int) : ByteStr :=
  [65, challenge]

/-- The challenge carried by a decoded message when it is a
`GetChallengeResponse`, as tested by `isinstance(message,
messages.GetChallengeResponse)` at proxy.py line 123. -/
def challengeOf : Msg → Option Int
  | Msg.getChallengeResponse c => some c
  | _ => none

/-- `True` exactly for the three client request kinds that
`QueryProxy.get_response_for` recognises. -/
def isRequest : Msg → Bool
  | Msg.infoRequest => true
  | Msg.playersRequest _ => true
  | Msg.rulesRequest _ => true
  | _ => false

/-- Result of `QueryProxy.get_response_for` (proxy.py lines 204-225): an encoded
response, a suspension on a not-yet-populated cache key (`await
self.resp_cache.get_wait(...)` with a pending future), or the
`NotImplementedError` raised when `resp` stays `None`. -/
inductive DispatchOutcome where
  | respond (resp : ByteStr)
  | suspendOn (key : String)
  | unhandled
  deriving DecidableEq, Repr

/-- `await self.resp_cache.get_wait(key)` as seen by the dispatcher: the cached
value when the key's future is done, otherwise a suspension on that key. -/
def awaitCache (resp_cache : AwaitableDict ByteStr) (k : String) : DispatchOutcome :=
  match resp_cache k with
  | some (Fut.done v) => DispatchOutcome.respond v
  | _ => DispatchOutcome.suspendOn k

/-- `QueryProxy.get_response_for` (proxy.py lines 204-225), as a function of the
proxy's fixed challenge, the current response cache, and the decoded message. -/
def get_response_for (our_a2s_challenge : Int) (resp_cache : AwaitableDict ByteStr)
    (message : Msg) : DispatchOutcome :=
  match message with
  | Msg.infoRequest => awaitCache resp_cache "a2s_info"
  | Msg.playersRequest challenge =>
    if challenge = our_a2s_challenge then awaitCache resp_cache "a2s_players"
    else if our_a2s_challenge ≠ A2S_EMPTY_CHALLENGE then
      DispatchOutcome.respond (GetChallengeResponse_encode our_a2s_challenge)
    else DispatchOutcome.unhandled
  | Msg.rulesRequest challenge =>
    if challenge = our_a2s_challenge then awaitCache resp_cache "a2s_rules"
    else if our_a2s_challenge ≠ A2S_EMPTY_CHALLENGE then
      DispatchOutcome.respond (GetChallengeResponse_encode our_a2s_challenge)
    else DispatchOutcome.unhandled
  | _ => DispatchOutcome.unhandled

/-- `QueryProxy.__init__` (proxy.py line 64) draws the proxy challenge with
`random.randint(1, MAX_SIZE_32)`, so it lies in this range. -/
def initChallengeValid (c : Int) : Prop := 1 ≤ c ∧ c ≤ MAX_SIZE_32

theorem awaitCache_of_getItem (resp_cache : AwaitableDict ByteStr) (k : String) :
    (∀ v, getItem resp_cache k = some v → awaitCache resp_cache k = DispatchOutcome.respond v) ∧
    (getItem resp_cache k = none → awaitCache resp_cache k = DispatchOutcome.suspendOn k) ∧
    awaitCache resp_cache k ≠ DispatchOutcome.unhandled := by
  cases h : resp_cache k with
  | none => simp [awaitCache, getItem, h]
  | some f => cases f <;> simp [awaitCache, getItem, h]

/-- Claim C1: for every decoded client request, `get_response_for` returns, for an
`InfoRequest`, the cached `a2s_info` payload (suspending until the first write if
not yet populated) regardless of any challenge state; for a `PlayersRequest` or
`RulesRequest` whose challenge equals the proxy challenge, the cached
`a2s_players`/`a2s_rules` payload; and for one whose challenge differs, the encoded
`GetChallengeResponse` carrying the proxy challenge. -/
theorem get_response_for_dispatch (our : Int) (resp_cache : AwaitableDict ByteStr)
    (h : initChallengeValid our) :
    (∀ p, getItem resp_cache "a2s_info" = some p →
      get_response_for our resp_cache Msg.infoRequest = DispatchOutcome.respond p) ∧
    (getItem resp_cache "a2s_info" = none →
      get_response_for our resp_cache Msg.infoRequest
        = DispatchOutcome.suspendOn "a2s_info") ∧
    (∀ p, getItem resp_cache "a2s_players" = some p →
      get_response_for our resp_cache (Msg.playersRequest our)
        = DispatchOutcome.respond p) ∧
    (∀ p, getItem resp_cache "a2s_rules" = some p →
      get_response_for our resp_cache (Msg.rulesRequest our)
        = DispatchOutcome.respond p) ∧
    (∀ ch, ch ≠ our →
      get_response_for our resp_cache (Msg.playersRequest ch)
        = DispatchOutcome.respond (GetChallengeResponse_encode our)) ∧
    (∀ ch, ch ≠ our →
      get_response_for our resp_cache (Msg.rulesRequest ch)
        = DispatchOutcome.respond (GetChallengeResponse_encode our)) := by
  have hne : our ≠ A2S_EMPTY_CHALLENGE := by
    have h1 := h.1
    simp only [A2S_EMPTY_CHALLENGE]
    omega
  refine ⟨?_, ?_, ?_, ?_, ?_, ?_⟩
  · intro p hp
    simpa [get_response_for] using (awaitCache_of_getItem resp_cache "a2s_info").1 p hp
  · intro hp
    simpa [get_response_for] using (awaitCache_of_getItem resp_cache "a2s_info").2.1 hp
  · intro p hp
    simpa [get_response_for] using (awaitCache_of_getItem resp_cache "a2s_players").1 p hp
  · intro p hp
    simpa [get_response_for] using (awaitCache_of_getItem resp_cache "a2s_rules").1 p hp
  · intro ch hch
    simp [get_response_for, hch, hne]
  · intro ch hch
    simp [get_response_for, hch, hne]

theorem get_response_for_dispatch_witness :
    initChallengeValid 48879 ∧
    getItem ((setItem (emptyDict ByteStr) "a2s_players" [80, 49]).1) "a2s_players"
      = some [80, 49] ∧
    (0 : Int) ≠ 48879 ∧
    get_response_for 48879 ((setItem (emptyDict ByteStr) "a2s_players" [80, 49]).1)
      (Msg.playersRequest 48879) = DispatchOutcome.respond [80, 49] ∧
    get_response_for 48879 ((setItem (emptyDict ByteStr) "a2s_players" [80, 49]).1)
      (Msg.playersRequest 0)
        = DispatchOutcome.respond (GetChallengeResponse_encode 48879) := by
  have hv : initChallengeValid 48879 := ⟨by decide, by decide⟩
  have hp : getItem ((setItem (emptyDict ByteStr) "a2s_players" [80, 49]).1)
      "a2s_players" = some ([80, 49] : ByteStr) := by decide
  have h := get_response_for_dispatch 48879
    ((setItem (emptyDict ByteStr) "a2s_players" [80, 49]).1) hv
  exact ⟨hv, hp, by decide, h.2.2.1 _ hp, h.2.2.2.2.1 0 (by decide)⟩

/-- Claim C6: `get_response_for` raises the unhandled-request error exactly when the
message is neither an `InfoRequest`, a `PlayersRequest`, nor a `RulesRequest`;
because the proxy challenge is drawn from `[1, MAX_SIZE_32]` at construction and the
sentinel is `-1`, the sentinel branch is unreachable, so every decoded
`Players`/`Rules` request receives some response. -/
theorem get_response_for_unhandled_iff (our : Int) (h : initChallengeValid our)
    (resp_cache : AwaitableDict ByteStr) :
    our ≠ A2S_EMPTY_CHALLENGE ∧
    (∀ m, get_response_for our resp_cache m = DispatchOutcome.unhandled
      ↔ isRequest m = false) := by
  have hne : our ≠ A2S_EMPTY_CHALLENGE := by
    have h1 := h.1
    simp only [A2S_EMPTY_CHALLENGE]
    omega
  refine ⟨hne, ?_⟩
  intro m
  cases m with
  | infoRequest =>
    simp [get_response_for, isRequest,
      (awaitCache_of_getItem resp_cache "a2s_info").2.2]
  | playersRequest ch =>
    by_cases hc : ch = our
    · simp [get_response_for, isRequest, hc,
        (awaitCache_of_getItem resp_cache "a2s_players").2.2]
    · simp [get_response_for, isRequest, hc, hne]
  | rulesRequest ch =>
    by_cases hc : ch = our
    · simp [get_response_for, isRequest, hc,
        (awaitCache_of_getItem resp_cache "a2s_rules").2.2]
    · simp [get_response_for, isRequest, hc, hne]
  | getChallengeResponse c => simp [get_response_for, isRequest]
  | infoResponse p => simp [get_response_for, isRequest]
  | playersResponse p => simp [get_response_for, isRequest]
  | rulesResponse p => simp [get_response_for, isRequest]

theorem get_response_for_unhandled_iff_witness :
    initChallengeValid 48879 ∧
    get_response_for 48879 (emptyDict ByteStr) (Msg.getChallengeResponse 5)
      = DispatchOutcome.unhandled ∧
    get_response_for 48879 (emptyDict ByteStr) (Msg.playersRequest 48879)
      ≠ DispatchOutcome.unhandled := by
  have hv : initChallengeValid 48879 := ⟨by decide, by decide⟩
  have h := get_response_for_unhandled_iff 48879 hv (emptyDict ByteStr)
  refine ⟨hv, (h.2 _).mpr rfl, ?_⟩
  intro hcontra
  simpa [isRequest] using (h.2 (Msg.playersRequest 48879)).mp hcontra

/-- One backend reply as produced by `client.recv_packet()`: the decoded message,
its raw bytes, and the sender address. -/
structure RecvItem where
  message : Msg
  data : ByteStr
  addr : Addr
  deriving DecidableEq, Repr

/-- `QueryProxy.send_recv_packet` (proxy.py lines 96-134), driven by the list of
replies the backend will deliver.  The first argument is the packet's own
challenge (`packet.get('challenge')`, `none` when the packet carries no challenge
field).  Each loop iteration sends the request encoded with the current challenge
value and receives the next reply; a `GetChallengeResponse` installs its challenge
as the new current challenge and repeats; any other reply terminates.  Returns
`none` when the reply list is exhausted before a terminal reply (the
`asyncio.TimeoutError` path), else `some (sends, terminal, final challenge)` where
`sends` lists the challenge value carried by each transmission in order. -/
def send_recv_packet (a2s_challenge : Option Int) :
    List RecvItem → Option (List (Option Int) × RecvItem × Option Int)
  | [] => none
  | r :: rest =>
    match challengeOf r.message with
    | some c =>
      match send_recv_packet (some c) rest with
      | none => none
      | some (sends, term, fin) => some (a2s_challenge :: sends, term, fin)
    | none => some ([a2s_challenge], r, a2s_challenge)

/-- A `GetChallengeResponse` reply carrying challenge `x.1`, raw bytes `x.2.1`,
from address `x.2.2`. -/
def mkChallengeItem (x : Int × ByteStr × Addr) : RecvItem :=
  ⟨Msg.getChallengeResponse x.1, x.2.1, x.2.2⟩

theorem send_recv_packet_run (chs : List (Int × ByteStr × Addr)) :
    ∀ (entry : Option Int) (term : RecvItem), challengeOf term.message = none →
      send_recv_packet entry (chs.map mkChallengeItem ++ [term])
        = some (entry :: chs.map (fun x => some x.1), term,
            (chs.map (fun x => some x.1)).getLastD entry) := by
  induction chs with
  | nil =>
    intro entry term hterm
    simp [send_recv_packet, hterm]
  | cons x chs ih =>
    intro entry term hterm
    have hx : challengeOf (mkChallengeItem x).message = some x.1 := rfl
    simp only [List.map_cons, List.cons_append, send_recv_packet, hx, List.append_eq]
    rw [ih (some x.1) term hterm]
    rw [List.getLastD_cons]

theorem send_recv_packet_all_challenges (trace : List RecvItem) :
    ∀ entry, (∀ r ∈ trace, (challengeOf r.message).isSome) →
      send_recv_packet entry trace = none := by
  induction trace with
  | nil => intro entry _; rfl
  | cons r rest ih =>
    intro entry hall
    have hr := hall r (by simp)
    cases hc : challengeOf r.message with
    | none => rw [hc] at hr; simp at hr
    | some c =>
      have hrest : send_recv_packet (some c) rest = none :=
        ih (some c) (fun r2 h2 => hall r2 (by simp [h2]))
      simp [send_recv_packet, hc, hrest]

/-- Claim C2: for a reply sequence of `N` `GetChallengeResponse` replies followed by
one reply of any other kind, `send_recv_packet` sends the request `N + 1` times —
first with the packet's own challenge (if any), then once per challenge reply with
the challenge it carried — and terminates on the first non-challenge reply,
returning its decoded message, raw bytes and sender address together with the last
challenge received (or the entry challenge when `N = 0`). -/
theorem send_recv_packet_challenge_loop (entry : Option Int)
    (chs : List (Int × ByteStr × Addr)) (term : RecvItem)
    (hterm : challengeOf term.message = none) :
    send_recv_packet entry (chs.map mkChallengeItem ++ [term])
      = some (entry :: chs.map (fun x => some x.1), term,
          (chs.map (fun x => some x.1)).getLastD entry) ∧
    (entry :: chs.map (fun x => some x.1)).length = chs.length + 1 := by
  refine ⟨send_recv_packet_run chs entry term hterm, ?_⟩
  simp

theorem send_recv_packet_challenge_loop_witness :
    challengeOf (RecvItem.mk (Msg.playersResponse [3]) [3] ("10.0.0.1", 27015)).message
      = none ∧
    send_recv_packet (some (-1))
      ([(7, ([65, 7] : ByteStr), (("10.0.0.1", 27015) : Addr)),
        (9, [65, 9], ("10.0.0.1", 27015))].map mkChallengeItem
        ++ [RecvItem.mk (Msg.playersResponse [3]) [3] ("10.0.0.1", 27015)])
      = some ([some (-1), some 7, some 9],
          RecvItem.mk (Msg.playersResponse [3]) [3] ("10.0.0.1", 27015), some 9) := by
  refine ⟨rfl, ?_⟩
  have h := send_recv_packet_challenge_loop (some (-1))
    [(7, ([65, 7] : ByteStr), (("10.0.0.1", 27015) : Addr)),
      (9, [65, 9], ("10.0.0.1", 27015))]
    (RecvItem.mk (Msg.playersResponse [3]) [3] ("10.0.0.1", 27015)) rfl
  simpa using h.1

/-- The backend behaviour for one query of a players/rules refresh loop: the
`GetChallengeResponse` replies delivered during the handshake, then the terminal
reply — `none` meaning the backend stops replying, so the receive raises
`asyncio.TimeoutError` — and the wall-clock duration of the query. -/
inductive QueryEvent where
  | query (replies : List (Int × ByteStr × Addr)) (term : Option RecvItem) (dur : Nat)
  deriving DecidableEq, Repr

/-- The reply trace the backend delivers for one query. -/
def queryTrace (replies : List (Int × ByteStr × Addr)) (term : Option RecvItem) :
    List RecvItem :=
  replies.map mkChallengeItem ++ term.toList

/-- How one connection epoch (one pass of the `while True` body) ends: the inner
loop's time check failed (`expired`, the link is closed and the loop reconnects),
a receive timed out (`timedOut`, the `asyncio.TimeoutError` unwinds the whole
body), or the supplied trace ran out with the loop still going. -/
inductive EpochExit where
  | expired (exitTime : Nat)
  | timedOut
  | outOfTrace
  deriving DecidableEq, Repr

/-- What one run of the inner query loop did: cache writes in order, the
challenge value carried by every transmission to the backend, every challenge
value received from the backend, and how the loop ended. -/
structure BodyResult where
  writes : List ByteStr
  sent : List (Option Int)
  received : List Int
  exit : EpochExit
  deriving DecidableEq, Repr

/-- The inner `while get_time() < connection_eta` loop of `_update_players`
(proxy.py lines 193-200) and `_update_rules` (lines 171-177): at time `t` with
backend challenge `ch`, build the request with the current challenge, run
`send_recv_packet`, write the terminal reply's raw bytes into the cache, carry
the returned challenge into the next query, and sleep the cache lifetime between
queries.  An exhausted reply trace inside `send_recv_packet` is the timeout that
aborts the whole epoch. -/
def runQueries (eta sleepDur : Nat) : Nat → Int → List QueryEvent → BodyResult
  | t, _, [] =>
    if eta ≤ t then ⟨[], [], [], EpochExit.expired t⟩
    else ⟨[], [], [], EpochExit.outOfTrace⟩
  | t, ch, QueryEvent.query replies term dur :: rest =>
    if eta ≤ t then ⟨[], [], [], EpochExit.expired t⟩
    else
      match send_recv_packet (some ch) (queryTrace replies term) with
      | none =>
        let rc := (queryTrace replies term).filterMap (fun r => challengeOf r.message)
        ⟨[], some ch :: rc.map some, rc, EpochExit.timedOut⟩
      | some (sends, tItem, fin) =>
        let r := runQueries eta sleepDur (t + dur + sleepDur) (fin.getD ch) rest
        ⟨tItem.data :: r.writes, sends ++ r.sent,
          replies.map (fun x => x.1) ++ r.received, r.exit⟩

/-- The environment of one connection epoch: how long `connect` takes and the
backend behaviour for each query attempted on that connection. -/
structure EpochEnv where
  connectDur : Nat
  events : List QueryEvent
  deriving DecidableEq, Repr

/-- The observable outcome of one connection epoch. -/
structure EpochResult where
  writes : List ByteStr
  sent : List (Option Int)
  received : List Int
  openTime : Nat
  exit : EpochExit
  deriving DecidableEq, Repr

/-- One connection epoch of `_update_players` (proxy.py lines 186-202) or
`_update_rules` (lines 159-179): at epoch start `t0` the expiry
`connection_eta = get_time() + connection_lifetime` is computed, then the backend
link is opened (taking `env.connectDur` time), then the epoch-local backend
challenge is reset to `A2S_EMPTY_CHALLENGE` and the inner query loop runs. -/
def runEpoch (t0 connectionLifetime sleepDur : Nat) (env : EpochEnv) : EpochResult :=
  let eta := t0 + connectionLifetime
  let tOpen := t0 + env.connectDur
  let body := runQueries eta sleepDur tOpen A2S_EMPTY_CHALLENGE env.events
  ⟨body.writes, body.sent, body.received, tOpen, body.exit⟩

theorem queryTrace_none_timeout (replies : List (Int × ByteStr × Addr)) (ch : Int) :
    send_recv_packet (some ch) (queryTrace replies none) = none := by
  apply send_recv_packet_all_challenges
  intro r hr
  simp only [queryTrace, Option.toList_none, List.append_nil, List.mem_map] at hr
  obtain ⟨x, _, rfl⟩ := hr
  simp [mkChallengeItem, challengeOf]

theorem getLastD_map_some (l : List Int) :
    ∀ a : Int, (l.map some).getLastD (some a) = some (l.getLastD a) := by
  induction l with
  | nil => intro a; rfl
  | cons b l ih =>
    intro a
    simp only [List.map_cons, List.getLastD_cons]
    exact ih b

theorem queryStep_success (replies : List (Int × ByteStr × Addr))
    (term : Option RecvItem) (ch : Int)
    (out : List (Option Int) × RecvItem × Option Int)
    (h : send_recv_packet (some ch) (queryTrace replies term) = some out) :
    ∃ tt, term = some tt ∧ challengeOf tt.message = none ∧
      out.1 = some ch :: replies.map (fun x => some x.1) ∧
      out.2.1 = tt ∧
      out.2.2 = some ((replies.map (fun x => x.1)).getLastD ch) := by
  cases term with
  | none => rw [queryTrace_none_timeout] at h; exact absurd h (by simp)
  | some tt =>
    cases hc : challengeOf tt.message with
    | some c =>
      have hall : send_recv_packet (some ch) (queryTrace replies (some tt)) = none := by
        apply send_recv_packet_all_challenges
        intro r hr
        simp only [queryTrace, Option.toList_some, List.mem_append, List.mem_map,
          List.mem_singleton] at hr
        rcases hr with ⟨x, _, rfl⟩ | rfl
        · simp [mkChallengeItem, challengeOf]
        · simp [hc]
      rw [hall] at h
      exact absurd h (by simp)
    | none =>
      have hrun := send_recv_packet_run replies (some ch) tt hc
      have htr : queryTrace replies (some tt) = replies.map mkChallengeItem ++ [tt] := by
        simp [queryTrace]
      rw [htr, hrun] at h
      have hmm : (replies.map (fun x => some x.1)).getLastD (some ch)
          = some ((replies.map (fun x => x.1)).getLastD ch) := by
        have := getLastD_map_some (replies.map (fun x => x.1)) ch
        simpa [List.map_map, Function.comp] using this
      have h2 : out = (some ch :: replies.map (fun x => some x.1), tt,
          (replies.map (fun x => some x.1)).getLastD (some ch)) :=
        (Option.some_inj.mp h).symm
      refine ⟨tt, rfl, hc, ?_, ?_, ?_⟩
      · rw [h2]
      · rw [h2]
      · rw [h2]
        exact hmm

theorem runQueries_sent_justified (eta sl : Nat) (evs : List QueryEvent) :
    ∀ (t : Nat) (ch : Int), ∀ x ∈ (runQueries eta sl t ch evs).sent,
      x = some ch ∨ ∃ c ∈ (runQueries eta sl t ch evs).received, x = some c := by
  induction evs with
  | nil =>
    intro t ch x hx
    by_cases h : eta ≤ t <;> simp [runQueries, h] at hx
  | cons e rest ih =>
    intro t ch x hx
    obtain ⟨replies, term, dur⟩ := e
    by_cases h : eta ≤ t
    · simp [runQueries, h] at hx
    · cases hs : send_recv_packet (some ch) (queryTrace replies term) with
      | none =>
        simp only [runQueries, if_neg h, hs] at hx ⊢
        rcases List.mem_cons.mp hx with rfl | hx2
        · exact Or.inl rfl
        · obtain ⟨c, hc, rfl⟩ := List.mem_map.mp hx2
          exact Or.inr ⟨c, hc, rfl⟩
      | some out =>
        obtain ⟨sends, tItem, fin⟩ := out
        obtain ⟨tt, hterm, htc, hsends, htitem, hfin⟩ :=
          queryStep_success replies term ch (sends, tItem, fin) hs
        simp only at hsends htitem hfin
        simp only [runQueries, if_neg h, hs] at hx ⊢
        have hget : fin.getD ch = (replies.map (fun x => x.1)).getLastD ch := by
          rw [hfin]; rfl
        rcases List.mem_append.mp hx with hx1 | hx2
        · rw [hsends] at hx1
          rcases List.mem_cons.mp hx1 with rfl | hx3
          · exact Or.inl rfl
          · obtain ⟨c, hc, rfl⟩ := List.mem_map.mp hx3
            exact Or.inr ⟨c.1, List.mem_append_left _ (List.mem_map_of_mem _ hc), rfl⟩
        · rw [hget] at hx2
          rcases ih (t + dur + sl) ((replies.map (fun x => x.1)).getLastD ch) x hx2 with
            hx3 | ⟨c, hc, rfl⟩
          · have hmem := List.getLastD_mem_cons (replies.map (fun x => x.1)) ch
            rcases List.mem_cons.mp hmem with heq | hmem2
            · rw [hx3, heq]; exact Or.inl rfl
            · exact Or.inr ⟨_, List.mem_append_left _ hmem2, hx3⟩
          · rw [hget]
            exact Or.inr ⟨c, List.mem_append_right _ hc, rfl⟩

theorem runQueries_sent_head (eta sl : Nat) (evs : List QueryEvent) (t : Nat) (ch : Int) :
    (runQueries eta sl t ch evs).sent ≠ [] →
    (runQueries eta sl t ch evs).sent.head? = some (some ch) := by
  intro hne
  cases evs with
  | nil =>
    by_cases h : eta ≤ t <;> simp [runQueries, h] at hne
  | cons e rest =>
    obtain ⟨replies, term, dur⟩ := e
    by_cases h : eta ≤ t
    · simp [runQueries, h] at hne
    · cases hs : send_recv_packet (some ch) (queryTrace replies term) with
      | none => simp [runQueries, if_neg h, hs]
      | some out =>
        obtain ⟨sends, tItem, fin⟩ := out
        obtain ⟨tt, hterm, htc, hsends, htitem, hfin⟩ :=
          queryStep_success replies term ch (sends, tItem, fin) hs
        simp only at hsends
        simp only [runQueries, if_neg h, hs]
        rw [hsends]
        rfl

/-- Claim C7: in the players and rules refresh loops the backend challenge is reset
to the sentinel at the start of every connection epoch (the first transmission of
an epoch always carries the sentinel) and every challenge value sent during an
epoch is either the sentinel or a value received in a `GetChallengeResponse`
within that same epoch — so no backend challenge obtained in one connection epoch
is ever sent on a later connection. -/
theorem epoch_challenge_scoping (t0 L C : Nat) (env : EpochEnv) :
    (∀ x ∈ (runEpoch t0 L C env).sent,
      x = some A2S_EMPTY_CHALLENGE ∨
      ∃ c ∈ (runEpoch t0 L C env).received, x = some c) ∧
    ((runEpoch t0 L C env).sent ≠ [] →
      (runEpoch t0 L C env).sent.head? = some (some A2S_EMPTY_CHALLENGE)) := by
  constructor
  · intro x hx
    exact runQueries_sent_justified (t0 + L) C env.events (t0 + env.connectDur)
      A2S_EMPTY_CHALLENGE x hx
  · intro hne
    exact runQueries_sent_head (t0 + L) C env.events (t0 + env.connectDur)
      A2S_EMPTY_CHALLENGE hne

theorem epoch_challenge_scoping_witness :
    some 7 ∈ (runEpoch 0 5 1 (EpochEnv.mk 0 [QueryEvent.query [(7, [65, 7], ("h", 1))]
        (some (RecvItem.mk (Msg.rulesResponse [2]) [2] ("h", 1))) 1])).sent ∧
    (some 7 = some A2S_EMPTY_CHALLENGE ∨
      ∃ c ∈ (runEpoch 0 5 1 (EpochEnv.mk 0 [QueryEvent.query [(7, [65, 7], ("h", 1))]
        (some (RecvItem.mk (Msg.rulesResponse [2]) [2] ("h", 1))) 1])).received,
        some 7 = some c) ∧
    (runEpoch 0 5 1 (EpochEnv.mk 0 [QueryEvent.query [(7, [65, 7], ("h", 1))]
        (some (RecvItem.mk (Msg.rulesResponse [2]) [2] ("h", 1))) 1])).sent.head?
      = some (some A2S_EMPTY_CHALLENGE) := by
  refine ⟨by decide, ?_, ?_⟩
  · exact (epoch_challenge_scoping 0 5 1 _).1 (some 7) (by decide)
  · exact (epoch_challenge_scoping 0 5 1 _).2 (by decide)

/-- The cumulative state of the retried refresh loop: how many connection epochs
have been run, all cache writes so far, the backoff delays slept so far, and
whether the model trace ran out. -/
structure DriverState where
  attempts : Nat
  writes : List ByteStr
  delays : List Nat
  halted : Bool
  deriving DecidableEq, Repr

/-- One pass of the retried refresh loop for players/rules.  Modelled from the
spec: the retry wrapper `retry_TimeoutError` (proxy.py lines 69-71) delegates to
the third-party `backoff.on_exception(backoff.constant, asyncio.TimeoutError)`
decorator, which is not part of this repository; per spec section 4.3 a timeout
aborts the epoch and the whole loop is retried from disconnected after a fixed
constant delay with no retry cap, while a normally expired epoch reconnects
immediately (the `while True` loop inside the wrapped function itself). -/
def driverStep (t0 L C wait : Nat) (env : EpochEnv) (s : DriverState) : DriverState :=
  if s.halted then s
  else
    let r := runEpoch t0 L C env
    match r.exit with
    | EpochExit.timedOut =>
      DriverState.mk (s.attempts + 1) (s.writes ++ r.writes) (s.delays ++ [wait]) false
    | EpochExit.expired _ =>
      DriverState.mk (s.attempts + 1) (s.writes ++ r.writes) s.delays false
    | EpochExit.outOfTrace => DriverState.mk s.attempts s.writes s.delays true

/-- Run `n` passes of the retried refresh loop, the `i`-th connection epoch
seeing backend behaviour `envs i`. -/
def driverRun (t0 L C wait : Nat) (envs : Nat → EpochEnv) : Nat → DriverState
  | 0 => DriverState.mk 0 [] [] false
  | n + 1 => driverStep t0 L C wait (envs n) (driverRun t0 L C wait envs n)

theorem runEpoch_never_replies (t0 L C d : Nat) (hL : 0 < L) :
    runEpoch t0 L C (EpochEnv.mk 0 [QueryEvent.query [] none d])
      = EpochResult.mk [] [some A2S_EMPTY_CHALLENGE] [] t0 EpochExit.timedOut := by
  have hL0 : ¬ L = 0 := by omega
  simp [runEpoch, runQueries, queryTrace, send_recv_packet, hL0]

/-- The backend behaviour for one query of the info refresh loop: a reply with
raw payload bytes, or no reply within the deadline (`asyncio.TimeoutError`),
together with the query's wall-clock duration. -/
inductive InfoEvent where
  | reply (data : ByteStr) (dur : Nat)
  | timeout (dur : Nat)
  deriving DecidableEq, Repr

/-- What the inner info query loop did: cache writes in order, the time each
query was issued, and how the loop ended. -/
structure InfoBodyResult where
  writes : List ByteStr
  queryTimes : List Nat
  exit : EpochExit
  deriving DecidableEq, Repr

/-- The inner `while get_time() < connection_eta` loop of `_update_info`
(proxy.py lines 148-155): each iteration sends the fixed, challenge-free
`InfoRequest` at the current time, receives the reply (or times out, aborting
the epoch), writes the raw bytes into the cache, and sleeps the info cache
lifetime before the next query. -/
def runInfoQueries (eta sleepDur : Nat) : Nat → List InfoEvent → InfoBodyResult
  | t, [] =>
    if eta ≤ t then ⟨[], [], EpochExit.expired t⟩
    else ⟨[], [], EpochExit.outOfTrace⟩
  | t, InfoEvent.timeout _ :: _ =>
    if eta ≤ t then ⟨[], [], EpochExit.expired t⟩
    else ⟨[], [t], EpochExit.timedOut⟩
  | t, InfoEvent.reply d dur :: rest =>
    if eta ≤ t then ⟨[], [], EpochExit.expired t⟩
    else
      let r := runInfoQueries eta sleepDur (t + dur + sleepDur) rest
      ⟨d :: r.writes, t :: r.queryTimes, r.exit⟩

/-- The environment of one info connection epoch: how long `connect` takes and
the backend behaviour for each query on that connection. -/
structure InfoEnv where
  connectDur : Nat
  events : List InfoEvent
  deriving DecidableEq, Repr

/-- The observable outcome of one info connection epoch. -/
structure InfoEpochResult where
  writes : List ByteStr
  queryTimes : List Nat
  openTime : Nat
  exit : EpochExit
  deriving DecidableEq, Repr

/-- One connection epoch of `_update_info` (proxy.py lines 136-157): at epoch
start `t0` (top of the `while True` body) the expiry
`connection_eta = get_time() + connection_lifetime` is computed first (line
143), and only then is the backend link opened (`await connect`, line 145),
taking `env.connectDur` time, after which the inner query loop runs. -/
def runEpochInfo (t0 connectionLifetime sleepDur : Nat) (env : InfoEnv) :
    InfoEpochResult :=
  let eta := t0 + connectionLifetime
  let tOpen := t0 + env.connectDur
  let body := runInfoQueries eta sleepDur tOpen env.events
  ⟨body.writes, body.queryTimes, tOpen, body.exit⟩

theorem runInfoQueries_bounds (eta sl : Nat) (evs : List InfoEvent) :
    ∀ t, (∀ q ∈ (runInfoQueries eta sl t evs).queryTimes, q < eta) ∧
      (∀ et, (runInfoQueries eta sl t evs).exit = EpochExit.expired et → eta ≤ et) := by
  induction evs with
  | nil =>
    intro t
    by_cases h : eta ≤ t
    · constructor
      · intro q hq; simp [runInfoQueries, h] at hq
      · intro et het
        simp only [runInfoQueries, if_pos h] at het
        cases het
        exact h
    · constructor
      · intro q hq; simp [runInfoQueries, h] at hq
      · intro et het; simp [runInfoQueries, h] at het
  | cons e rest ih =>
    intro t
    cases e with
    | timeout dur =>
      by_cases h : eta ≤ t
      · constructor
        · intro q hq; simp [runInfoQueries, h] at hq
        · intro et het
          simp only [runInfoQueries, if_pos h] at het
          cases het
          exact h
      · constructor
        · intro q hq
          simp only [runInfoQueries, if_neg h, List.mem_singleton] at hq
          omega
        · intro et het; simp [runInfoQueries, h] at het
    | reply d dur =>
      by_cases h : eta ≤ t
      · constructor
        · intro q hq; simp [runInfoQueries, h] at hq
        · intro et het
          simp only [runInfoQueries, if_pos h] at het
          cases het
          exact h
      · constructor
        · intro q hq
          simp only [runInfoQueries, if_neg h, List.mem_cons] at hq
          rcases hq with rfl | hq2
          · omega
          · exact (ih (t + dur + sl)).1 q hq2
        · intro et het
          simp only [runInfoQueries, if_neg h] at het
          exact (ih (t + dur + sl)).2 et het

/-- Counterexample to claim C8 as stated: with connection_lifetime 2 and a
`connect` that takes 10 time units, the epoch (with zero errors) closes the link
and reconnects at time 10 — the very moment the connection was opened, strictly
before connection_lifetime seconds have elapsed since connection open — because
`connection_eta` is computed from the epoch-start clock reading taken before
`connect`, not when the link is opened. -/
theorem epoch_expiry_open_anchor_counterexample :
    (runEpochInfo 0 2 1 (InfoEnv.mk 10 [])).exit = EpochExit.expired 10 ∧
    (runEpochInfo 0 2 1 (InfoEnv.mk 10 [])).openTime = 10 ∧
    (runEpochInfo 0 2 1 (InfoEnv.mk 10 [])).writes = [] ∧
    ¬ ((runEpochInfo 0 2 1 (InfoEnv.mk 10 [])).openTime + 2 ≤ 10) := by
  refine ⟨rfl, rfl, rfl, ?_⟩
  decide

/-- Claim C8 (amended): in every refresh-loop epoch the connection expiry is
computed as `now + connection_lifetime` at the start of the epoch body,
immediately before the fresh backend link is opened; queries repeat only while
the current time is below that expiry, and with zero errors the loop closes the
link and reconnects at or after `connection_lifetime` seconds from that
epoch-start computation (not necessarily from connection open). -/
theorem epoch_expiry_from_epoch_start (t0 L C : Nat) (env : InfoEnv) :
    (runEpochInfo t0 L C env).openTime = t0 + env.connectDur ∧
    (∀ q ∈ (runEpochInfo t0 L C env).queryTimes, q < t0 + L) ∧
    (∀ et, (runEpochInfo t0 L C env).exit = EpochExit.expired et → t0 + L ≤ et) := by
  refine ⟨rfl, ?_, ?_⟩
  · intro q hq
    exact (runInfoQueries_bounds (t0 + L) C env.events (t0 + env.connectDur)).1 q hq
  · intro et het
    exact (runInfoQueries_bounds (t0 + L) C env.events (t0 + env.connectDur)).2 et het

theorem epoch_expiry_from_epoch_start_witness :
    4 ∈ (runEpochInfo 0 5 1
        (InfoEnv.mk 0 [InfoEvent.reply [1] 3, InfoEvent.reply [2] 3])).queryTimes ∧
    4 < 0 + 5 ∧
    (runEpochInfo 0 5 1
        (InfoEnv.mk 0 [InfoEvent.reply [1] 3, InfoEvent.reply [2] 3])).exit
      = EpochExit.expired 8 ∧
    0 + 5 ≤ 8 := by
  refine ⟨by decide, ?_, by decide, ?_⟩
  · exact (epoch_expiry_from_epoch_start 0 5 1
      (InfoEnv.mk 0 [InfoEvent.reply [1] 3, InfoEvent.reply [2] 3])).2.1 4 (by decide)
  · exact (epoch_expiry_from_epoch_start 0 5 1
      (InfoEnv.mk 0 [InfoEvent.reply [1] 3, InfoEvent.reply [2] 3])).2.2 8 (by decide)

/-- One pass of the retried info refresh loop.  Modelled from the spec: the same
`retry_TimeoutError` wrapper (proxy.py lines 69-71, the third-party
`backoff.on_exception(backoff.constant, asyncio.TimeoutError)` decorator, not
repository code) is applied to `_update_info` at line 91; per spec section 4.3
a timeout aborts the epoch and the whole loop is retried from disconnected
after a fixed constant delay with no retry cap, while a normally expired epoch
reconnects immediately (the `while True` loop inside `_update_info` itself). -/
def driverStepInfo (t0 L C wait : Nat) (env : InfoEnv) (s : DriverState) : DriverState :=
  if s.halted then s
  else
    let r := runEpochInfo t0 L C env
    match r.exit with
    | EpochExit.timedOut =>
      DriverState.mk (s.attempts + 1) (s.writes ++ r.writes) (s.delays ++ [wait]) false
    | EpochExit.expired _ =>
      DriverState.mk (s.attempts + 1) (s.writes ++ r.writes) s.delays false
    | EpochExit.outOfTrace => DriverState.mk s.attempts s.writes s.delays true

/-- Run `n` passes of the retried info refresh loop, the `i`-th connection
epoch seeing backend behaviour `envs i`. -/
def driverRunInfo (t0 L C wait : Nat) (envs : Nat → InfoEnv) : Nat → DriverState
  | 0 => DriverState.mk 0 [] [] false
  | n + 1 => driverStepInfo t0 L C wait (envs n) (driverRunInfo t0 L C wait envs n)

theorem runEpochInfo_never_replies (t0 L C d : Nat) (hL : 0 < L) :
    runEpochInfo t0 L C (InfoEnv.mk 0 [InfoEvent.timeout d])
      = InfoEpochResult.mk [] [t0] t0 EpochExit.timedOut := by
  have hL0 : ¬ L = 0 := by omega
  simp [runEpochInfo, runInfoQueries, hL0]

/-- Claim C5: in each of the three refresh loops (info, players, rules), a
timeout anywhere inside the loop body aborts the entire current connection
epoch (nothing after the timed-out query on that connection runs), and the
whole loop restarts from the disconnected state after a constant backoff delay,
indefinitely: a backend that never replies yields, for every `n`, `n` retries
with `n` identical delays, no cache write, and a loop that is still running.
The players/rules loop is covered by `runQueries`/`runEpoch`/`driverRun` and
the info loop by `runInfoQueries`/`runEpochInfo`/`driverRunInfo`. -/
theorem refresh_timeout_retry_policy (eta sl t0 L C wait d : Nat) (ch : Int)
    (t : Nat) (hL : 0 < L) :
    (∀ (pre post : List QueryEvent) (replies : List (Int × ByteStr × Addr)),
      runQueries eta sl t ch (pre ++ QueryEvent.query replies none d :: post)
        = runQueries eta sl t ch (pre ++ [QueryEvent.query replies none d])) ∧
    (runEpoch t0 L C (EpochEnv.mk 0 [QueryEvent.query [] none d])).exit
      = EpochExit.timedOut ∧
    (runEpoch t0 L C (EpochEnv.mk 0 [QueryEvent.query [] none d])).writes = [] ∧
    (∀ n, driverRun t0 L C wait (fun _ => EpochEnv.mk 0 [QueryEvent.query [] none d]) n
      = DriverState.mk n [] (List.replicate n wait) false) ∧
    (∀ (pre post : List InfoEvent),
      runInfoQueries eta sl t (pre ++ InfoEvent.timeout d :: post)
        = runInfoQueries eta sl t (pre ++ [InfoEvent.timeout d])) ∧
    (runEpochInfo t0 L C (InfoEnv.mk 0 [InfoEvent.timeout d])).exit
      = EpochExit.timedOut ∧
    (runEpochInfo t0 L C (InfoEnv.mk 0 [InfoEvent.timeout d])).writes = [] ∧
    (∀ n, driverRunInfo t0 L C wait (fun _ => InfoEnv.mk 0 [InfoEvent.timeout d]) n
      = DriverState.mk n [] (List.replicate n wait) false) := by
  refine ⟨?_, ?_, ?_, ?_, ?_, ?_, ?_, ?_⟩
  · intro pre post replies
    induction pre generalizing t ch with
    | nil =>
      by_cases h : eta ≤ t
      · simp [runQueries, h]
      · have htimeout := queryTrace_none_timeout replies ch
        simp [runQueries, h, htimeout]
    | cons e pre ih =>
      obtain ⟨replies2, term2, dur2⟩ := e
      by_cases h : eta ≤ t
      · simp [runQueries, h]
      · cases hs : send_recv_packet (some ch) (queryTrace replies2 term2) with
        | none => simp [runQueries, h, hs]
        | some out =>
          obtain ⟨sends, tItem, fin⟩ := out
          simp only [List.cons_append, runQueries, if_neg h, hs, List.append_eq]
          rw [ih]
  · rw [runEpoch_never_replies t0 L C d hL]
  · rw [runEpoch_never_replies t0 L C d hL]
  · intro n
    induction n with
    | zero => rfl
    | succ n ih =>
      show driverStep t0 L C wait _ _ = _
      rw [ih, driverStep]
      simp only [runEpoch_never_replies t0 L C d hL]
      simp [List.replicate_succ']
  · intro pre post
    induction pre generalizing t with
    | nil =>
      by_cases h : eta ≤ t <;> simp [runInfoQueries, h]
    | cons e pre ih =>
      cases e with
      | timeout dur2 =>
        by_cases h : eta ≤ t <;> simp [runInfoQueries, h]
      | reply d2 dur2 =>
        by_cases h : eta ≤ t
        · simp [runInfoQueries, h]
        · simp only [List.cons_append, runInfoQueries, if_neg h, List.append_eq]
          rw [ih]
  · rw [runEpochInfo_never_replies t0 L C d hL]
  · rw [runEpochInfo_never_replies t0 L C d hL]
  · intro n
    induction n with
    | zero => rfl
    | succ n ih =>
      show driverStepInfo t0 L C wait _ _ = _
      rw [ih, driverStepInfo]
      simp only [runEpochInfo_never_replies t0 L C d hL]
      simp [List.replicate_succ']

theorem refresh_timeout_retry_policy_witness :
    0 < 5 ∧
    driverRun 0 5 1 1 (fun _ => EpochEnv.mk 0 [QueryEvent.query [] none 2]) 3
      = DriverState.mk 3 [] (List.replicate 3 1) false ∧
    (runEpoch 0 5 1 (EpochEnv.mk 0 [QueryEvent.query [] none 2])).writes = [] ∧
    driverRunInfo 0 5 1 1 (fun _ => InfoEnv.mk 0 [InfoEvent.timeout 2]) 3
      = DriverState.mk 3 [] (List.replicate 3 1) false ∧
    (runEpochInfo 0 5 1 (InfoEnv.mk 0 [InfoEvent.timeout 2])).writes = [] := by
  have h := refresh_timeout_retry_policy 10 1 0 5 1 1 2 (-1) 0 (by decide)
  exact ⟨by decide, h.2.2.2.1 3, h.2.2.1, h.2.2.2.2.2.2.2 3, h.2.2.2.2.2.2.1⟩

/-- An inbound datagram as returned by `listening.recv_packet()`: either one
that failed to decode (`request is None`, keeping the raw bytes), or a decoded
message with its raw bytes and sender address. -/
inductive Datagram where
  | broken (data : ByteStr)
  | decoded (m : Msg) (data : ByteStr) (addr : Addr)
  deriving DecidableEq, Repr

/-- An observable action of the listener loop: the warning log of broken data
(showing `data[:150]`), or a response sent back to an address. -/
inductive ListenerEvent where
  | logBroken (shown : ByteStr)
  | sent (resp : ByteStr) (addr : Addr)
  deriving DecidableEq, Repr

/-- How a finite listener run ends: the trace is exhausted with the loop still
alive, the loop is suspended awaiting a not-yet-populated cache key, or the
`NotImplementedError` from the dispatcher escaped. -/
inductive ListenerHalt where
  | looping
  | blockedOn (key : String)
  | crashed
  deriving DecidableEq, Repr

/-- `QueryProxy.listen_client_requests` (proxy.py lines 73-87), driven by a list
of inbound datagrams.  A datagram that failed to decode is logged (first 150
bytes) and discarded, with no response, and the loop continues; a decoded
message is answered via `get_response_for` and the response is sent back to the
sender.  The run halts `blockedOn` a cache key when the dispatcher suspends on
a not-yet-populated key (head-of-line blocking, the cache being fixed during
the run), and `crashed` when the dispatcher raises `NotImplementedError`. -/
def listen_client_requests (our : Int) (resp_cache : AwaitableDict ByteStr) :
    List Datagram → List ListenerEvent × ListenerHalt
  | [] => ([], ListenerHalt.looping)
  | Datagram.broken d :: rest =>
    let r := listen_client_requests our resp_cache rest
    (ListenerEvent.logBroken (d.take 150) :: r.1, r.2)
  | Datagram.decoded m _ a :: rest =>
    match get_response_for our resp_cache m with
    | DispatchOutcome.respond resp =>
      let r := listen_client_requests our resp_cache rest
      (ListenerEvent.sent resp a :: r.1, r.2)
    | DispatchOutcome.suspendOn k => ([], ListenerHalt.blockedOn k)
    | DispatchOutcome.unhandled => ([], ListenerHalt.crashed)

/-- Claim C9: an inbound datagram that fails to decode makes the listener log
the broken data and send no response, and the receive loop continues exactly as
if the broken datagram had not been there; in particular the next well-formed
datagram is still dispatched and answered normally. -/
theorem listener_broken_datagram_skip (our : Int) (resp_cache : AwaitableDict ByteStr)
    (d : ByteStr) (rest : List Datagram) :
    listen_client_requests our resp_cache (Datagram.broken d :: rest)
      = (ListenerEvent.logBroken (d.take 150)
          :: (listen_client_requests our resp_cache rest).1,
         (listen_client_requests our resp_cache rest).2) ∧
    (listen_client_requests our resp_cache [Datagram.broken d]).1
      = [ListenerEvent.logBroken (d.take 150)] ∧
    (listen_client_requests our resp_cache [Datagram.broken d]).2
      = ListenerHalt.looping ∧
    (∀ m data a resp,
      get_response_for our resp_cache m = DispatchOutcome.respond resp →
      listen_client_requests our resp_cache
          [Datagram.broken d, Datagram.decoded m data a]
        = ([ListenerEvent.logBroken (d.take 150), ListenerEvent.sent resp a],
           ListenerHalt.looping)) := by
  refine ⟨rfl, rfl, rfl, ?_⟩
  intro m data a resp h
  simp [listen_client_requests, h]

theorem listener_broken_datagram_skip_witness :
    get_response_for 48879 ((setItem (emptyDict ByteStr) "a2s_info" [73, 49]).1)
      Msg.infoRequest = DispatchOutcome.respond [73, 49] ∧
    listen_client_requests 48879 ((setItem (emptyDict ByteStr) "a2s_info" [73, 49]).1)
        [Datagram.broken [0, 1], Datagram.decoded Msg.infoRequest [84] ("c", 7)]
      = ([ListenerEvent.logBroken (([0, 1] : ByteStr).take 150),
          ListenerEvent.sent [73, 49] ("c", 7)], ListenerHalt.looping) := by
  have hresp : get_response_for 48879
      ((setItem (emptyDict ByteStr) "a2s_info" [73, 49]).1) Msg.infoRequest
        = DispatchOutcome.respond [73, 49] := by decide
  exact ⟨hresp,
    (listener_broken_datagram_skip 48879
      ((setItem (emptyDict ByteStr) "a2s_info" [73, 49]).1) [0, 1] []).2.2.2
      Msg.infoRequest [84] ("c", 7) [73, 49] hresp⟩

end SourceQueryProxy
